import Mathlib

/-!
Verification of the async_wrr_queue crate: a smooth weighted round-robin
selection queue.  The Rust source (src/instance.rs, src/wrr_queue.rs) is
shallowly embedded below.  Machine integers (usize) are modelled as Nat with
an explicit modulus for the wrapping fetch_add of the cursor; Rust panics
(unwrap on None, modulo by zero) are modelled by Option-returning functions
where the panicking result is none.  The blocking backend is the primary
model; the tokio backend differs only in recalculate_queue's empty-list
guard, which is modelled separately as recalculate_queue_tokio.
-/

namespace WrrSpec

/-- Modulus of usize arithmetic: the cursor is an AtomicUsize whose
fetch_add wraps modulo 2 to the 64. -/
def USIZE_MOD : Nat := 2 ^ 64

/-- Embedding of struct Instance of src/instance.rs: data paired with a
NonZeroUsize weight (modelled as Nat; positivity is enforced at the
conversion boundary, see Instance.from_pair).  The derived PartialEq of the
Rust source compares both fields, which the derived DecidableEq mirrors. -/
structure Instance (T : Type) where
  data : T
  weight : Nat
deriving DecidableEq

/-- Embedding of the From conversion for (T, U) pairs of src/instance.rs:
NonZeroUsize.new(u).unwrap() panics (none) when u is zero. -/
def Instance.from_pair {T : Type} (d : T) (u : Nat) : Option (Instance T) :=
  if u = 0 then none else some ⟨d, u⟩

/-- Embedding of struct WrrQueue of src/wrr_queue.rs: the candidate list,
the atomic cursor and the published schedule (the RwLock-guarded
select_queue of candidate indices). -/
structure WrrQueue (T : Type) where
  instance_list : List (Instance T)
  cur_idx : Nat
  select_queue : List Nat
deriving DecidableEq

namespace WrrQueue

variable {T : Type} [DecidableEq T]

/-- Embedding of WrrQueue::new / Default::default: empty list, cursor 0,
empty schedule. -/
def new : WrrQueue T := ⟨[], 0, []⟩

/-- Embedding of WrrQueue::insert_uncalculated: Vec::contains uses the
derived PartialEq (data and weight); on a duplicate nothing changes and
false is returned, otherwise the instance is pushed at the end. -/
def insert_uncalculated (q : WrrQueue T) (inst : Instance T) : Bool × WrrQueue T :=
  if q.instance_list.any (fun x => decide (x = inst)) then (false, q)
  else (true, { q with instance_list := q.instance_list ++ [inst] })

/-- Embedding of WrrQueue::clear_instance_uncalculated: all three fields
are reset to their defaults. -/
def clear_instance (_q : WrrQueue T) : WrrQueue T := ⟨[], 0, []⟩

/-- Embedding of WrrQueue::delete_uncalculated, keeping the source's
inverted contains check: when the instance IS contained the function
returns false without touching the list; otherwise position(..).unwrap()
is evaluated on a list that does not contain the instance, so the unwrap
panics, modelled as none. -/
def delete_uncalculated (q : WrrQueue T) (inst : Instance T) :
    Option (Bool × WrrQueue T) :=
  if q.instance_list.any (fun x => decide (x = inst)) then some (false, q)
  else
    match q.instance_list.findIdx? (fun x => decide (x = inst)) with
    | none => none
    | some index =>
        some (true, { q with instance_list := q.instance_list.eraseIdx index })

end WrrQueue

/-- The loop body of the free function select_instance of src/wrr_queue.rs:
for index i, cur_weight[i] += weight_vec[i], acc += weight_vec[i], and the
running argmax is moved to i when the (already updated) cur_weight at i
strictly exceeds the one at the current argmax.  State is
(cur_weight, selected, acc). -/
def progStep (weight_vec : List Nat) (st : List Int × Nat × Int) (i : Nat) :
    List Int × Nat × Int :=
  let cw := st.1.set i (st.1.getD i 0 + Int.ofNat (weight_vec.getD i 0))
  (cw, if cw.getD st.2.1 0 < cw.getD i 0 then i else st.2.1,
   st.2.2 + Int.ofNat (weight_vec.getD i 0))

/-- Embedding of the free function select_instance of src/wrr_queue.rs: on
an empty weight vector it logs and returns 0 without touching cur_weight;
otherwise it runs the loop over all indices and finally subtracts the
accumulated total from the winner's counter.  Returns the winner and the
updated cur_weight. -/
def select_instance (weight_vec : List Nat) (cur_weight : List Int) :
    Nat × List Int :=
  if weight_vec.isEmpty then (0, cur_weight)
  else
    let r := (List.range weight_vec.length).foldl (progStep weight_vec)
      (cur_weight, 0, 0)
    (r.2.1, r.1.set r.2.1 (r.1.getD r.2.1 0 - r.2.2))

/-- One iteration of the schedule-building loop of
WrrQueue::recalculate_queue: push the selected index and keep the updated
cur_weight vector. -/
def scheduleStep (weight_vec : List Nat) (st : List Nat × List Int) (_ : Nat) :
    List Nat × List Int :=
  let p := select_instance weight_vec st.2
  (st.1 ++ [p.1], p.2)

/-- The schedule computed by WrrQueue::recalculate_queue (blocking) from
the weights of the candidate list: lcm of the weights folded from 1,
cur_weight_vec initialised to the weights themselves (cast to isize), and
lcm + 1 iterations of select_instance. -/
def recalculate_schedule (weight_vec : List Nat) : List Nat :=
  ((List.range ((weight_vec.foldl Nat.lcm 1) + 1)).foldl
    (scheduleStep weight_vec)
    ([], weight_vec.map Int.ofNat)).1

namespace WrrQueue

variable {T : Type} [DecidableEq T]

/-- Embedding of WrrQueue::recalculate_queue (blocking backend): the
published select_queue is replaced by the freshly computed schedule; the
function reads only the weights of instance_list.  Note the blocking
version has no guard for an empty instance_list. -/
def recalculate_queue (q : WrrQueue T) : WrrQueue T :=
  { q with select_queue := recalculate_schedule (q.instance_list.map Instance.weight) }

/-- Embedding of WrrQueue::recalculate_queue (tokio backend): identical to
the blocking one except that an empty instance_list short-circuits into
clear_instance. -/
def recalculate_queue_tokio (q : WrrQueue T) : WrrQueue T :=
  if q.instance_list.isEmpty then q.clear_instance
  else { q with select_queue := recalculate_schedule (q.instance_list.map Instance.weight) }

/-- Embedding of WrrQueue::insert (blocking): insert_uncalculated then an
unconditional recalculate_queue; returns the bool of the insertion. -/
def insert (q : WrrQueue T) (inst : Instance T) : Bool × WrrQueue T :=
  let r := q.insert_uncalculated inst
  (r.1, r.2.recalculate_queue)

/-- The lazy iterator chain map(insert_uncalculated).all(id) of
WrrQueue::insert_many: Iterator::all short-circuits at the first false, so
elements after the first failed insertion are never inserted. -/
def insert_many_loop (q : WrrQueue T) : List (Instance T) → Bool × WrrQueue T
  | [] => (true, q)
  | i :: rest =>
    let r := q.insert_uncalculated i
    if r.1 then insert_many_loop r.2 rest else (false, r.2)

/-- Embedding of WrrQueue::insert_many (blocking): the short-circuiting
fold over the batch followed by a single recalculate_queue. -/
def insert_many (q : WrrQueue T) (l : List (Instance T)) : Bool × WrrQueue T :=
  let r := insert_many_loop q l
  (r.1, r.2.recalculate_queue)

/-- Embedding of WrrQueue::select (blocking).  Result component: none
models a panic (idx % 0 when the schedule is empty while the candidate
list is not); some none models the Rust None return (empty candidate
list, or an out-of-range lookup propagated through the question-mark
operator and the final Vec::get).  The state component records the
mutations made before any panic: fetch_add has already advanced the
wrapping cursor. -/
def select (q : WrrQueue T) : Option (Option (Instance T)) × WrrQueue T :=
  if q.instance_list.isEmpty then (some none, q)
  else
    let idx := q.cur_idx
    let q' := { q with cur_idx := (q.cur_idx + 1) % USIZE_MOD }
    if q.select_queue.length = 0 then (none, q')
    else
      let selected_seq_idx := idx % q.select_queue.length
      match q.select_queue[selected_seq_idx]? with
      | none => (some none, q')
      | some selected_instance_idx =>
          (some q.instance_list[selected_instance_idx]?, q')

/-- Embedding of WrrQueue::delete_instance (blocking): recalculate only
when delete_uncalculated returned true; a panic of delete_uncalculated
propagates. -/
def delete_instance (q : WrrQueue T) (inst : Instance T) :
    Option (Bool × WrrQueue T) :=
  match q.delete_uncalculated inst with
  | none => none
  | some (true, q') => some (true, q'.recalculate_queue)
  | some (false, q') => some (false, q')

end WrrQueue

/-- States of the blocking queue reachable through the public interface:
new, insert, insert_many, delete_instance (when it does not panic),
clear_instance and select. -/
inductive Reachable {T : Type} [DecidableEq T] : WrrQueue T → Prop where
  | init : Reachable WrrQueue.new
  | insert_step (s : WrrQueue T) (i : Instance T) :
      Reachable s → Reachable (s.insert i).2
  | insert_many_step (s : WrrQueue T) (l : List (Instance T)) :
      Reachable s → Reachable (s.insert_many l).2
  | delete_step (s : WrrQueue T) (i : Instance T) (r : Bool × WrrQueue T) :
      Reachable s → s.delete_instance i = some r → Reachable r.2
  | clear_step (s : WrrQueue T) : Reachable s → Reachable s.clear_instance
  | select_step (s : WrrQueue T) : Reachable s → Reachable (s.select).2

/-- Modelled from the spec, section 4.3, step (c): argmax of the counter
vector, ties broken by the lowest index (strict comparison keeps the
earliest maximum). -/
def argmaxStep (cur : List Int) (sel i : Nat) : Nat :=
  if cur.getD sel 0 < cur.getD i 0 then i else sel

/-- Modelled from the spec, section 4.3: the argmax over the whole counter
vector. -/
def spec_argmax (cur : List Int) : Nat :=
  (List.range cur.length).foldl (argmaxStep cur) 0

/-- Modelled from the spec, section 4.3, steps (a) to (e): add each weight
to its counter, accumulate the total weight, pick the argmax (lowest index
on ties), subtract the total from the winner. -/
def spec_step (w : List Nat) (cur : List Int) : Nat × List Int :=
  let cur' := List.zipWith (fun c wi => c + Int.ofNat wi) cur w
  let acc : Int := (w.map Int.ofNat).sum
  let sel := spec_argmax cur'
  (sel, cur'.set sel (cur'.getD sel 0 - acc))

/-- One iteration of the spec's schedule loop: append the winner. -/
def spec_scheduleStep (w : List Nat) (st : List Nat × List Int) (_ : Nat) :
    List Nat × List Int :=
  let p := spec_step w st.2
  (st.1 ++ [p.1], p.2)

/-- Modelled from the spec, section 4.3: lcm + 1 iterations of the
reference step starting from a given initial counter vector. -/
def spec_schedule_from (w : List Nat) (init : List Int) : List Nat :=
  ((List.range ((w.foldl Nat.lcm 1) + 1)).foldl (spec_scheduleStep w)
    ([], init)).1

/-- Modelled from the spec, section 4.3, step 2 as written: counters start
at zero. -/
def spec_schedule_zero_init (w : List Nat) : List Nat :=
  spec_schedule_from w (w.map (fun _ => 0))

/-- The reference algorithm amended to match the source: counters start at
the weights themselves (the source initialises cur_weight_vec to
weight_vec cast to isize). -/
def spec_schedule_weight_init (w : List Nat) : List Nat :=
  spec_schedule_from w (w.map Int.ofNat)

/-- Run k consecutive select calls, collecting the returned data values
(outer none is a panic, inner none the no-candidate result). -/
def run_selects {T : Type} [DecidableEq T] (q : WrrQueue T) :
    Nat → List (Option (Option T)) × WrrQueue T
  | 0 => ([], q)
  | k + 1 =>
    let r := q.select
    let rest := run_selects r.2 k
    ((r.1.map (fun o => o.map Instance.data)) :: rest.1, rest.2)

/-- A queue holding the single candidate with data 0 and weight 1, built
through the public interface. -/
def singletonQueue : WrrQueue Nat := (WrrQueue.new.insert ⟨0, 1⟩).2

/-- The queue of the complex scenario: batch a:1, b:2 (data 0 and 1), then
c:3 (data 2), then batch d:5, e:2 (data 3 and 4). -/
def complexQueue : WrrQueue Nat :=
  (WrrQueue.insert_many
    ((WrrQueue.insert ((WrrQueue.insert_many (WrrQueue.new : WrrQueue Nat)
        [⟨0, 1⟩, ⟨1, 2⟩]).2) ⟨2, 3⟩).2)
    [⟨3, 5⟩, ⟨4, 2⟩]).2

/-- The 13-entry index pattern the spec claims for the complex scenario
(a=0, b=1, c=2, d=3, e=4). -/
def complexPattern : List Nat := [3, 2, 1, 3, 4, 3, 2, 0, 3, 1, 4, 2, 3]

/-- C1: on a queue holding candidate (0,1), deleting that present
candidate returns false and leaves the queue untouched, and deleting the
absent candidate (1,1) panics (the inverted contains check sends it into
position(..).unwrap() on a list without the candidate) — the code
contradicts the claimed contract that delete removes a present candidate,
returns true, and never panics. -/
theorem c1_delete_inverted_code_bug :
    WrrQueue.delete_instance singletonQueue ⟨0, 1⟩ = some (false, singletonQueue) ∧
    WrrQueue.delete_instance singletonQueue ⟨1, 1⟩ = none := by
  decide

/-- C2 counterexample: for the candidate list with weights 1 and 3 the
schedule published by a rebuild is [1, 1, 0, 1], while the reference
algorithm of spec section 4.3 with counters initialised to zero produces
[1, 0, 1, 1] — the claim fails at this input. -/
theorem c2_zero_init_counterexample :
    (WrrQueue.recalculate_queue
        (⟨[⟨0, 1⟩, ⟨1, 3⟩], 0, []⟩ : WrrQueue Nat)).select_queue ≠
      spec_schedule_zero_init [1, 3] := by
  decide

/-- C3 counterexample: the candidates (data 0, weight 1) and (data 0,
weight 2) have equal data but are not equal, because the derived
PartialEq of the source compares the weight as well — the claimed
equivalence fails at this input. -/
theorem c3_data_only_equality_counterexample :
    ¬ (((⟨0, 1⟩ : Instance Nat) = ⟨0, 2⟩) ↔
        ((⟨0, 1⟩ : Instance Nat).data = (⟨0, 2⟩ : Instance Nat).data)) := by
  decide

/-- C3 amended: two candidates are equal iff both their data and their
weight are equal (the derived PartialEq is field-wise), and exactly this
equality drives the duplicate check of insert_uncalculated: it reports
failure iff the inserted instance is already a member of the list. -/
theorem c3_instance_equality :
    (∀ (T : Type) (i1 i2 : Instance T),
        i1 = i2 ↔ i1.data = i2.data ∧ i1.weight = i2.weight) ∧
    (∀ (T : Type) [DecidableEq T] (q : WrrQueue T) (i : Instance T),
        (q.insert_uncalculated i).1 = false ↔ i ∈ q.instance_list) := by
  constructor
  · intro T i1 i2
    cases i1
    cases i2
    simp [Instance.mk.injEq]
  · intro T _dec q i
    simp only [WrrQueue.insert_uncalculated]
    by_cases h : i ∈ q.instance_list
    · rw [if_pos]
      · simpa using h
      · simp only [List.any_eq_true, decide_eq_true_eq]
        exact ⟨i, h, rfl⟩
    · rw [if_neg]
      · simpa using h
      · simp only [List.any_eq_true, decide_eq_true_eq, not_exists, not_and]
        intro x hx hxi
        exact h (hxi ▸ hx)

/-- C4 counterexample: on a queue holding (0,1), insert_many of the batch
[(0,1), (1,1)] stops at the duplicate first element, so the non-duplicate
second element is never appended, refuting the claim that elements after
a duplicate are still inserted. -/
theorem c4_short_circuit_counterexample :
    ((WrrQueue.insert_many singletonQueue [⟨0, 1⟩, ⟨1, 1⟩]).1 = false) ∧
    ¬ ((⟨1, 1⟩ : Instance Nat) ∈
        ((WrrQueue.insert_many singletonQueue [⟨0, 1⟩, ⟨1, 1⟩]).2).instance_list) := by
  decide

/-- C5: the blocking recalculate_queue has no empty-list guard (the tokio
one does), so insert_many with an empty batch on a fresh queue publishes
the schedule [0, 0] while the candidate list is empty — the claimed
invariant that an empty candidate list implies an empty schedule is
violated by the code (select still returns the no-candidate result). -/
theorem c5_empty_rebuild_code_bug :
    ((WrrQueue.insert_many (WrrQueue.new : WrrQueue Nat) []).2).instance_list = [] ∧
    ((WrrQueue.insert_many (WrrQueue.new : WrrQueue Nat) []).2).select_queue = [0, 0] ∧
    (((WrrQueue.insert_many (WrrQueue.new : WrrQueue Nat) []).2).select).1 =
      some none := by
  decide

/-- C6 counterexample: in the complex scenario the published schedule is
not the claimed 13-element sequence (it has 31 entries, the lcm of the
weights being 30, not 12), and the sequence of 34 consecutive fresh
selects differs from cycling the 13-element pattern (they disagree at the
34th call). -/
theorem c6_thirteen_schedule_counterexample :
    complexQueue.select_queue ≠ complexPattern ∧
    (run_selects complexQueue 34).1 ≠
      (List.range 34).map
        (fun i => some (some (complexPattern.getD (i % 13) 99))) := by
  decide

/-- C6 amended: the complex scenario publishes the 31-entry schedule
(lcm 30, 31 entries) that repeats the 13-element pattern d, c, b, d, e,
d, c, a, d, b, e, c, d cyclically, truncated to 31 entries, and the first
31 consecutive selects on the fresh queue return exactly those candidates
in pattern order. -/
theorem c6_complex_schedule_amended :
    complexQueue.select_queue =
      (List.range 31).map (fun i => complexPattern.getD (i % 13) 99) ∧
    (run_selects complexQueue 31).1 =
      (List.range 31).map
        (fun i => some (some (complexPattern.getD (i % 13) 99))) := by
  decide

/-- C8 counterexample: on a queue holding (data 0, weight 1), inserting
the candidate (data 0, weight 2) — equal data, different weight — is NOT
rejected: it returns true and appends the instance, refuting the claim
that a data-equal insertion fails and changes nothing. -/
theorem c8_data_only_duplicate_counterexample :
    (WrrQueue.insert singletonQueue ⟨0, 2⟩).1 = true ∧
    ((WrrQueue.insert singletonQueue ⟨0, 2⟩).2).instance_list =
      [⟨0, 1⟩, ⟨0, 2⟩] := by
  decide

/-- Helper: a select call never changes the candidate list or the
published schedule, in any state (including the panic branch, where only
the already-performed fetch_add is visible). -/
theorem select_preserves_lists {T : Type} [DecidableEq T] (q : WrrQueue T) :
    ((q.select).2).instance_list = q.instance_list ∧
    ((q.select).2).select_queue = q.select_queue := by
  unfold WrrQueue.select
  split
  · simp
  · split
    · simp
    · cases hm : q.select_queue[q.cur_idx % q.select_queue.length]? <;> simp [hm]

/-- C9: a select call leaves the candidate list and the schedule exactly
as they were; its only state change is the wrapping increment of the
cursor, and on an empty-candidate queue not even that. -/
theorem c9_select_frame_effect :
    ∀ (T : Type) [DecidableEq T] (q : WrrQueue T),
      ((q.select).2).instance_list = q.instance_list ∧
      ((q.select).2).select_queue = q.select_queue ∧
      ((q.select).2).cur_idx =
        (if q.instance_list.isEmpty then q.cur_idx
         else (q.cur_idx + 1) % USIZE_MOD) := by
  intro T _ q
  unfold WrrQueue.select
  cases h : q.instance_list.isEmpty
  · simp only [h, Bool.false_eq_true, if_false]
    split
    · simp
    · cases hm : q.select_queue[q.cur_idx % q.select_queue.length]? <;> simp [hm]
  · simp [h]

/-- The step of the spec-level insert_many: apply insert_uncalculated to
the element and conjoin its result, with no short-circuit.  Modelled from
the spec: insert_many applies insert to each element in the given order
and returns true only if all insertions succeeded. -/
def eachStep {T : Type} [DecidableEq T] (st : Bool × WrrQueue T)
    (i : Instance T) : Bool × WrrQueue T :=
  let r := st.2.insert_uncalculated i
  (st.1 && r.1, r.2)

/-- Modelled from the spec: the batch insert that processes every element
of the batch, duplicates or not. -/
def spec_insert_each {T : Type} [DecidableEq T] (q : WrrQueue T)
    (l : List (Instance T)) : Bool × WrrQueue T :=
  l.foldl eachStep (true, q)

/-- Helper: once the accumulated boolean is false it stays false. -/
theorem eachStep_foldl_false {T : Type} [DecidableEq T] :
    ∀ (l : List (Instance T)) (q : WrrQueue T),
      (l.foldl eachStep (false, q)).1 = false := by
  intro l
  induction l with
  | nil => intro q; rfl
  | cons i rest ih =>
    intro q
    have hstep : eachStep (false, q) i = (false, (q.insert_uncalculated i).2) := by
      simp [eachStep]
    rw [List.foldl_cons, hstep]
    exact ih _

/-- Helper: the short-circuiting loop of the source returns the same
boolean as the process-everything fold, and when that boolean is true the
resulting states agree as well. -/
theorem insert_many_loop_spec {T : Type} [DecidableEq T] :
    ∀ (l : List (Instance T)) (q : WrrQueue T),
      (WrrQueue.insert_many_loop q l).1 = (spec_insert_each q l).1 ∧
      ((WrrQueue.insert_many_loop q l).1 = true →
        WrrQueue.insert_many_loop q l = spec_insert_each q l) := by
  intro l
  induction l with
  | nil => intro q; exact ⟨rfl, fun _ => rfl⟩
  | cons i rest ih =>
    intro q
    have hspec : spec_insert_each q (i :: rest) =
        rest.foldl eachStep ((q.insert_uncalculated i).1,
          (q.insert_uncalculated i).2) := by
      simp [spec_insert_each, eachStep]
    cases hr : (q.insert_uncalculated i).1
    · have hloop : WrrQueue.insert_many_loop q (i :: rest) =
          (false, (q.insert_uncalculated i).2) := by
        simp [WrrQueue.insert_many_loop, hr]
      rw [hloop, hspec, hr]
      refine ⟨(eachStep_foldl_false rest _).symm, ?_⟩
      intro h
      exact absurd h (by simp)
    · have hloop : WrrQueue.insert_many_loop q (i :: rest) =
          WrrQueue.insert_many_loop (q.insert_uncalculated i).2 rest := by
        simp [WrrQueue.insert_many_loop, hr]
      rw [hloop, hspec, hr]
      exact ih _

/-- C4 amended: insert_many returns the same boolean as applying the
single-element insertion to every element in order (true iff no element
was a duplicate), and when no element is a duplicate its resulting state
is the every-element state followed by the single final rebuild; when a
duplicate is hit, processing stops there (the counterexample shows later
elements are not inserted). -/
theorem c4_insert_many_amended :
    ∀ (T : Type) [DecidableEq T] (q : WrrQueue T) (l : List (Instance T)),
      (q.insert_many l).1 = (spec_insert_each q l).1 ∧
      ((q.insert_many l).1 = true →
        (q.insert_many l).2 = ((spec_insert_each q l).2).recalculate_queue) := by
  intro T _ q l
  obtain ⟨h1, h2⟩ := insert_many_loop_spec l q
  refine ⟨h1, fun h => ?_⟩
  have hl : (WrrQueue.insert_many_loop q l).1 = true := h
  have := h2 hl
  show (WrrQueue.insert_many_loop q l).2.recalculate_queue = _
  rw [this]

/-- C4 witness: a batch with no duplicates on the empty queue. -/
theorem c4_insert_many_amended_witness :
    (WrrQueue.insert_many (WrrQueue.new : WrrQueue Nat) [⟨0, 1⟩]).1 =
      (spec_insert_each WrrQueue.new [⟨0, 1⟩]).1 ∧
    (WrrQueue.insert_many (WrrQueue.new : WrrQueue Nat) [⟨0, 1⟩]).2 =
      ((spec_insert_each WrrQueue.new [⟨0, 1⟩]).2).recalculate_queue :=
  ⟨(c4_insert_many_amended Nat WrrQueue.new [⟨0, 1⟩]).1,
   (c4_insert_many_amended Nat WrrQueue.new [⟨0, 1⟩]).2 (by decide)⟩

/-- The counter vector after the per-step additions: counters plus
weights, pointwise. -/
def zipAdd (cur : List Int) (w : List Nat) : List Int :=
  List.zipWith (fun c wi => c + Int.ofNat wi) cur w

/-- The argmax of the first k entries, folded exactly like spec_argmax. -/
def spec_argmax_upto (cur : List Int) (k : Nat) : Nat :=
  (List.range k).foldl (argmaxStep cur) 0

/-- The counter vector in the middle of the select_instance loop: the
first k entries already updated, the rest still untouched. -/
def mixed (cur cur' : List Int) (k : Nat) : List Int :=
  cur'.take k ++ cur.drop k

theorem zipAdd_length (cur : List Int) (w : List Nat) :
    (zipAdd cur w).length = min cur.length w.length := by
  simp [zipAdd]

theorem zipAdd_getD (cur : List Int) (w : List Nat) (i : Nat)
    (hc : i < cur.length) (hw : i < w.length) :
    (zipAdd cur w).getD i 0 = cur.getD i 0 + Int.ofNat (w.getD i 0) := by
  simp only [List.getD_eq_getElem?_getD, zipAdd, List.getElem?_zipWith,
    List.getElem?_eq_getElem hc, List.getElem?_eq_getElem hw]
  rfl

theorem mixed_zero (cur cur' : List Int) : mixed cur cur' 0 = cur := by
  simp [mixed]

theorem mixed_getD_lt (cur cur' : List Int) (k j : Nat) (hj : j < k)
    (hj' : j < cur'.length) :
    (mixed cur cur' k).getD j 0 = cur'.getD j 0 := by
  have hlen : j < (cur'.take k).length := by
    simp only [List.length_take]
    exact Nat.lt_min.mpr ⟨hj, hj'⟩
  simp only [List.getD_eq_getElem?_getD, mixed,
    List.getElem?_append_left hlen, List.getElem?_take_of_lt hj]

theorem mixed_getD_at (cur cur' : List Int) (k : Nat) (hk : k ≤ cur'.length) :
    (mixed cur cur' k).getD k 0 = cur.getD k 0 := by
  have hlen : (cur'.take k).length = k := List.length_take_of_le hk
  simp only [List.getD_eq_getElem?_getD, mixed,
    List.getElem?_append_right (by omega : (cur'.take k).length ≤ k), hlen,
    Nat.sub_self, List.getElem?_drop, Nat.add_zero]

theorem mixed_set (cur cur' : List Int) (k : Nat) (hk : k < cur.length)
    (hk' : k < cur'.length) :
    (mixed cur cur' k).set k (cur'.getD k 0) = mixed cur cur' (k + 1) := by
  have hlen : (cur'.take k).length = k := List.length_take_of_le (Nat.le_of_lt hk')
  have hset : (mixed cur cur' k).set k (cur'.getD k 0) =
      cur'.take k ++ (cur.drop k).set 0 (cur'.getD k 0) := by
    have := List.set_append_right (s := cur'.take k) (t := cur.drop k) k
      (cur'.getD k 0) (Nat.le_of_eq hlen)
    rw [mixed, this, hlen, Nat.sub_self]
  have hget : cur'.getD k 0 = cur'[k] := by
    simp [List.getD_eq_getElem?_getD, List.getElem?_eq_getElem hk']
  rw [hset, List.drop_eq_getElem_cons hk, List.set_cons_zero, hget, mixed,
    List.take_succ, List.getElem?_eq_getElem hk', Option.toList_some,
    List.append_assoc, List.singleton_append]

theorem take_map_sum_succ (w : List Nat) (k : Nat) (hk : k < w.length) :
    ((w.take (k + 1)).map Int.ofNat).sum =
      ((w.take k).map Int.ofNat).sum + Int.ofNat (w.getD k 0) := by
  rw [List.take_succ, List.getElem?_eq_getElem hk, Option.toList_some,
    List.map_append, List.sum_append, List.map_cons, List.map_nil,
    List.sum_cons, List.sum_nil, add_zero, List.getD_eq_getElem?_getD,
    List.getElem?_eq_getElem hk, Option.getD_some]

theorem spec_argmax_upto_succ (cur : List Int) (k : Nat) :
    spec_argmax_upto cur (k + 1) =
      argmaxStep cur (spec_argmax_upto cur k) k := by
  simp [spec_argmax_upto, List.range_succ]

theorem spec_argmax_upto_cases (cur : List Int) :
    ∀ k, spec_argmax_upto cur k = 0 ∨ spec_argmax_upto cur k < k := by
  intro k
  induction k with
  | zero => exact Or.inl rfl
  | succ k ih =>
    rw [spec_argmax_upto_succ, argmaxStep]
    split
    · exact Or.inr (Nat.lt_succ_self k)
    · rcases ih with h | h
      · exact Or.inl h
      · exact Or.inr (Nat.lt_succ_of_lt h)

theorem spec_argmax_upto_le (cur : List Int) (k : Nat) :
    spec_argmax_upto cur k ≤ k := by
  rcases spec_argmax_upto_cases cur k with h | h
  · omega
  · omega

/-- The select_instance loop computes, after k iterations, exactly the
partially-updated counter vector, the argmax of the updated entries, and
the partial weight sum. -/
theorem prog_foldl_range (w : List Nat) (cur : List Int)
    (h : cur.length = w.length) :
    ∀ k, k ≤ w.length →
      (List.range k).foldl (progStep w) (cur, 0, 0) =
        (mixed cur (zipAdd cur w) k, spec_argmax_upto (zipAdd cur w) k,
         ((w.take k).map Int.ofNat).sum) := by
  intro k
  induction k with
  | zero =>
    intro _
    simp [mixed_zero, spec_argmax_upto]
  | succ k ih =>
    intro hk1
    have hk : k < w.length := hk1
    have hkc : k < cur.length := h ▸ hk
    have hkz : k < (zipAdd cur w).length := by
      rw [zipAdd_length, h]
      omega
    rw [List.range_succ, List.foldl_append, ih (Nat.le_of_lt hk)]
    show progStep w (_, _, _) k = _
    rw [progStep]
    have hcw : (mixed cur (zipAdd cur w) k).set k
        ((mixed cur (zipAdd cur w) k).getD k 0 + Int.ofNat (w.getD k 0)) =
        mixed cur (zipAdd cur w) (k + 1) := by
      rw [mixed_getD_at cur (zipAdd cur w) k (Nat.le_of_lt hkz),
        ← zipAdd_getD cur w k hkc hk, mixed_set cur (zipAdd cur w) k hkc hkz]
    simp only [hcw]
    have hsel : spec_argmax_upto (zipAdd cur w) k ≤ k :=
      spec_argmax_upto_le (zipAdd cur w) k
    have hgsel : (mixed cur (zipAdd cur w) (k + 1)).getD
        (spec_argmax_upto (zipAdd cur w) k) 0 =
        (zipAdd cur w).getD (spec_argmax_upto (zipAdd cur w) k) 0 :=
      mixed_getD_lt cur (zipAdd cur w) (k + 1) _
        (Nat.lt_succ_of_le hsel) (by omega)
    have hgk : (mixed cur (zipAdd cur w) (k + 1)).getD k 0 =
        (zipAdd cur w).getD k 0 :=
      mixed_getD_lt cur (zipAdd cur w) (k + 1) k (Nat.lt_succ_self k) hkz
    rw [hgsel, hgk, take_map_sum_succ w k hk, spec_argmax_upto_succ]
    rfl

/-- The loop body of the source equals the reference step of the spec on
counter vectors of matching length. -/
theorem select_instance_eq_spec_step (w : List Nat) (cur : List Int)
    (h : cur.length = w.length) (hw : w ≠ []) :
    select_instance w cur = spec_step w cur := by
  have hne : w.isEmpty = false := by simpa using hw
  have hz : (zipAdd cur w).length = w.length := by
    rw [zipAdd_length, h]
    omega
  have hmix : mixed cur (zipAdd cur w) w.length = zipAdd cur w := by
    rw [mixed, List.take_of_length_le (by omega), List.drop_of_length_le (by omega),
      List.append_nil]
  have hargmax : spec_argmax_upto (zipAdd cur w) w.length =
      spec_argmax (zipAdd cur w) := by
    rw [spec_argmax, hz]
    rfl
  rw [select_instance, hne]
  simp only [Bool.false_eq_true, if_false]
  rw [prog_foldl_range w cur h w.length (Nat.le_refl _), hmix, hargmax,
    List.take_length]
  rfl

/-- The select_instance loop never changes the length of the counter
vector. -/
theorem prog_foldl_length (w : List Nat) :
    ∀ (l : List Nat) (st : List Int × Nat × Int),
      ((l.foldl (progStep w) st).1).length = st.1.length := by
  intro l
  induction l with
  | nil => intro st; rfl
  | cons x xs ih =>
    intro st
    rw [List.foldl_cons, ih]
    simp [progStep]

theorem select_instance_length (w : List Nat) (cur : List Int) :
    ((select_instance w cur).2).length = cur.length := by
  rw [select_instance]
  split
  · rfl
  · simp [prog_foldl_length]

/-- The schedule loop of the source and the schedule loop of the
(weight-initialised) reference algorithm coincide step by step. -/
theorem schedule_foldl_eq (w : List Nat) (hw : w ≠ []) :
    ∀ (l : List Nat) (q : List Nat) (cw : List Int), cw.length = w.length →
      l.foldl (scheduleStep w) (q, cw) = l.foldl (spec_scheduleStep w) (q, cw) := by
  intro l
  induction l with
  | nil => intro q cw _; rfl
  | cons x xs ih =>
    intro q cw hcw
    rw [List.foldl_cons, List.foldl_cons]
    have hstep : scheduleStep w (q, cw) x = spec_scheduleStep w (q, cw) x := by
      rw [scheduleStep, spec_scheduleStep, select_instance_eq_spec_step w cw hcw hw]
    rw [hstep]
    apply ih
    show ((spec_step w cw).2).length = w.length
    rw [← select_instance_eq_spec_step w cw hcw hw, select_instance_length, hcw]

/-- C2 amended: for every non-empty candidate list, the schedule published
by a rebuild equals the sequence of the reference algorithm of spec
section 4.3 with the per-candidate counters initialised to the weights
(current[i] = w_i) instead of zero; all other steps (lcm + 1 iterations,
adding each weight, argmax with lowest-index tie-break, subtracting the
total weight) are exactly as the spec describes. -/
theorem c2_schedule_weight_init :
    ∀ (T : Type) [DecidableEq T] (q : WrrQueue T),
      q.instance_list ≠ [] →
      (q.recalculate_queue).select_queue =
        spec_schedule_weight_init (q.instance_list.map Instance.weight) := by
  intro T _ q h
  have hw : q.instance_list.map Instance.weight ≠ [] := by
    simpa using h
  show recalculate_schedule _ = _
  rw [recalculate_schedule, spec_schedule_weight_init, spec_schedule_from,
    schedule_foldl_eq _ hw _ _ _ (by rw [List.length_map])]

/-- C2 witness: the rebuild for candidates of weights 1 and 3. -/
theorem c2_schedule_weight_init_witness :
    (WrrQueue.recalculate_queue
        (⟨[⟨0, 1⟩, ⟨1, 3⟩], 0, []⟩ : WrrQueue Nat)).select_queue =
      spec_schedule_weight_init [1, 3] :=
  c2_schedule_weight_init Nat ⟨[⟨0, 1⟩, ⟨1, 3⟩], 0, []⟩ (by decide)

theorem findIdx?_eq_none_of_any_eq_false {α : Type} (p : α → Bool) :
    ∀ (l : List α), l.any p = false → l.findIdx? p = none := by
  intro l
  induction l with
  | nil => intro _; rfl
  | cons a as ih =>
    intro h
    rw [List.any_cons, Bool.or_eq_false_iff] at h
    simp [List.findIdx?_cons, h.1, ih h.2]

/-- Helper: delete_instance, when it does not panic, reports failure and
leaves the state untouched (the inverted contains check means the only
non-panicking path is the one for a present candidate, which does not
delete). -/
theorem delete_instance_no_change {T : Type} [DecidableEq T] (q : WrrQueue T)
    (i : Instance T) (r : Bool × WrrQueue T)
    (h : q.delete_instance i = some r) : r = (false, q) := by
  rw [WrrQueue.delete_instance] at h
  cases hc : q.instance_list.any (fun x => decide (x = i)) with
  | false =>
    have hn := findIdx?_eq_none_of_any_eq_false _ _ hc
    rw [WrrQueue.delete_uncalculated, hc] at h
    simp [hn] at h
  | true =>
    rw [WrrQueue.delete_uncalculated, hc] at h
    simp at h
    exact h.symm

/-- The schedule-consistency invariant: whenever the candidate list is
non-empty, the published schedule is the one recomputed from the current
weights. -/
def schedInv {T : Type} [DecidableEq T] (q : WrrQueue T) : Prop :=
  q.instance_list ≠ [] →
    q.select_queue = recalculate_schedule (q.instance_list.map Instance.weight)

theorem recalc_schedInv {T : Type} [DecidableEq T] (q : WrrQueue T) :
    schedInv q.recalculate_queue := fun _ => rfl

/-- Every reachable state satisfies the schedule-consistency invariant. -/
theorem reachable_schedInv {T : Type} [DecidableEq T] (q : WrrQueue T)
    (h : Reachable q) : schedInv q := by
  induction h with
  | init => intro h; exact absurd rfl h
  | insert_step s i hs ih =>
    exact recalc_schedInv (s.insert_uncalculated i).2
  | insert_many_step s l hs ih =>
    exact recalc_schedInv (WrrQueue.insert_many_loop s l).2
  | delete_step s i r hs hd ih =>
    rw [delete_instance_no_change s i r hd]
    exact ih
  | clear_step s hs ih => intro h; exact absurd rfl h
  | select_step s hs ih =>
    obtain ⟨h1, h2⟩ := select_preserves_lists s
    intro hne
    rw [h1, h2]
    exact ih (by rw [← h1]; exact hne)

theorem scheduleStep_foldl_length (w : List Nat) :
    ∀ (l : List Nat) (st : List Nat × List Int),
      ((l.foldl (scheduleStep w) st).1).length = st.1.length + l.length := by
  intro l
  induction l with
  | nil => intro st; rfl
  | cons x xs ih =>
    intro st
    rw [List.foldl_cons, ih]
    simp [scheduleStep]
    omega

/-- The published schedule always has lcm + 1 entries, so it is never
empty. -/
theorem recalculate_schedule_ne_nil (w : List Nat) :
    recalculate_schedule w ≠ [] := by
  have hlen : (recalculate_schedule w).length = (w.foldl Nat.lcm 1) + 1 := by
    rw [recalculate_schedule, scheduleStep_foldl_length, List.length_range]
    simp
  intro h
  rw [h] at hlen
  simp at hlen

theorem progStep_foldl_sel_lt (w : List Nat) :
    ∀ (l : List Nat) (st : List Int × Nat × Int), st.2.1 < w.length →
      (∀ i ∈ l, i < w.length) →
      ((l.foldl (progStep w) st).2.1) < w.length := by
  intro l
  induction l with
  | nil => intro st h _; exact h
  | cons x xs ih =>
    intro st h hmem
    rw [List.foldl_cons]
    apply ih
    · rw [progStep]
      dsimp only
      split
      · exact hmem x (List.mem_cons_self x xs)
      · exact h
    · intro i hi
      exact hmem i (List.mem_cons_of_mem _ hi)

/-- On a non-empty weight vector, select_instance returns an in-bounds
candidate index. -/
theorem select_instance_sel_lt (w : List Nat) (cw : List Int) (hw : w ≠ []) :
    (select_instance w cw).1 < w.length := by
  have hne : w.isEmpty = false := by simpa using hw
  rw [select_instance, hne]
  simp only [Bool.false_eq_true, if_false]
  exact progStep_foldl_sel_lt w (List.range w.length) (cw, 0, 0)
    (List.length_pos.mpr hw) (fun i hi => List.mem_range.mp hi)

theorem scheduleStep_foldl_mem_lt (w : List Nat) (hw : w ≠ []) :
    ∀ (l : List Nat) (st : List Nat × List Int),
      (∀ j ∈ st.1, j < w.length) →
      ∀ j ∈ (l.foldl (scheduleStep w) st).1, j < w.length := by
  intro l
  induction l with
  | nil => intro st h; exact h
  | cons x xs ih =>
    intro st h
    rw [List.foldl_cons]
    apply ih
    intro j hj
    rw [scheduleStep] at hj
    dsimp only at hj
    rcases List.mem_append.mp hj with h1 | h1
    · exact h j h1
    · rw [List.mem_singleton] at h1
      rw [h1]
      exact select_instance_sel_lt w st.2 hw

/-- Every entry of the published schedule is an in-bounds candidate
index. -/
theorem recalculate_schedule_mem_lt (w : List Nat) (hw : w ≠ []) :
    ∀ j ∈ recalculate_schedule w, j < w.length := by
  apply scheduleStep_foldl_mem_lt w hw
  intro j hj
  cases hj

/-- C7: on every reachable state with a non-empty candidate list, select
returns a candidate (no panic, no no-candidate result): the schedule is
non-empty so the modulo is well-defined, its entries are in-bounds, and
the returned candidate — hence its data — belongs to the current list. -/
theorem c7_select_nonempty :
    ∀ (T : Type) [DecidableEq T] (q : WrrQueue T), Reachable q →
      q.instance_list ≠ [] →
      ∃ inst, (q.select).1 = some (some inst) ∧ inst ∈ q.instance_list ∧
        inst.data ∈ q.instance_list.map Instance.data := by
  intro T _ q hr hne
  have hinv := reachable_schedInv q hr hne
  have hwv : q.instance_list.map Instance.weight ≠ [] := by simpa using hne
  have hqne : q.select_queue ≠ [] := by
    rw [hinv]
    exact recalculate_schedule_ne_nil _
  have hlen : 0 < q.select_queue.length := List.length_pos.mpr hqne
  have hmod : q.cur_idx % q.select_queue.length < q.select_queue.length :=
    Nat.mod_lt _ hlen
  obtain ⟨j, hsome⟩ :
      ∃ j, q.select_queue[q.cur_idx % q.select_queue.length]? = some j :=
    ⟨_, List.getElem?_eq_getElem hmod⟩
  have hjmem : j ∈ q.select_queue := List.getElem?_mem hsome
  have hjlt : j < q.instance_list.length := by
    have hjm : j ∈ recalculate_schedule (q.instance_list.map Instance.weight) := by
      rw [← hinv]
      exact hjmem
    have h1 := recalculate_schedule_mem_lt _ hwv _ hjm
    rwa [List.length_map] at h1
  obtain ⟨inst, hinst⟩ : ∃ inst, q.instance_list[j]? = some inst :=
    ⟨_, List.getElem?_eq_getElem hjlt⟩
  have hinstmem : inst ∈ q.instance_list := List.getElem?_mem hinst
  refine ⟨inst, ?_, hinstmem, List.mem_map_of_mem _ hinstmem⟩
  have hempty : q.instance_list.isEmpty = false := by simpa using hne
  rw [WrrQueue.select, hempty]
  simp only [Bool.false_eq_true, if_false]
  rw [if_neg (by omega)]
  simp only [hsome, hinst]

/-- C7 witness: the reachable one-candidate queue. -/
theorem c7_select_nonempty_witness :
    ∃ inst, ((singletonQueue).select).1 = some (some inst) ∧
      inst ∈ singletonQueue.instance_list ∧
      inst.data ∈ singletonQueue.instance_list.map Instance.data :=
  c7_select_nonempty Nat singletonQueue
    (Reachable.insert_step WrrQueue.new ⟨0, 1⟩ Reachable.init) (by decide)

/-- C8 amended: on every reachable state, inserting a candidate equal
(same data AND weight) to an already-present one returns false and leaves
the whole state — candidate list, schedule and cursor — unchanged: the
unconditional rebuild recomputes the very same schedule. -/
theorem c8_duplicate_insert_noop :
    ∀ (T : Type) [DecidableEq T] (q : WrrQueue T) (i : Instance T),
      Reachable q → i ∈ q.instance_list → q.insert i = (false, q) := by
  intro T _ q i hr hmem
  have hne : q.instance_list ≠ [] := List.ne_nil_of_mem hmem
  have hinv := reachable_schedInv q hr hne
  have hc : q.instance_list.any (fun x => decide (x = i)) = true := by
    simp only [List.any_eq_true, decide_eq_true_eq]
    exact ⟨i, hmem, rfl⟩
  have huncalc : q.insert_uncalculated i = (false, q) := by
    rw [WrrQueue.insert_uncalculated, if_pos hc]
  have hq : q.recalculate_queue = q := by
    rw [WrrQueue.recalculate_queue, ← hinv]
  rw [WrrQueue.insert, huncalc]
  dsimp only
  rw [hq]

/-- C8 witness: re-inserting the candidate (0, 1) into the reachable
one-candidate queue. -/
theorem c8_duplicate_insert_noop_witness :
    WrrQueue.insert singletonQueue ⟨0, 1⟩ = (false, singletonQueue) :=
  c8_duplicate_insert_noop Nat singletonQueue ⟨0, 1⟩
    (Reachable.insert_step WrrQueue.new ⟨0, 1⟩ Reachable.init) (by decide)

/-- C10: converting a (data, unsigned-integer) pair succeeds and yields a
candidate with that data and weight whenever the integer is at least one,
and panics (none) when it is zero, because NonZeroUsize::new(0) is None
and is unwrapped. -/
theorem c10_from_pair (T : Type) (d : T) (u : Nat) :
    (1 ≤ u → Instance.from_pair d u = some ⟨d, u⟩) ∧
    (u = 0 → Instance.from_pair d u = none) := by
  constructor
  · intro h
    have hu : u ≠ 0 := Nat.pos_iff_ne_zero.mp h
    simp [Instance.from_pair, hu]
  · intro h
    simp [Instance.from_pair, h]

/-- C10 witness: the conversion at data 7 with integer 3 and with
integer 0. -/
theorem c10_from_pair_witness :
    Instance.from_pair (7 : Nat) 3 = some ⟨7, 3⟩ ∧
    Instance.from_pair (7 : Nat) 0 = none :=
  ⟨(c10_from_pair Nat 7 3).1 (by decide), (c10_from_pair Nat 7 0).2 rfl⟩

end WrrSpec
